import Mathlib

/-!
Verification of the vcit object store (src/vcit/libvcit.py) against its
natural-language specification.  The Python source is shallowly embedded:
byte strings become `List Nat`, the filesystem becomes an explicit record
threaded through the repository operations, and every fallible Python
operation returns `Except PyErr`.  Exceptions raised by the source are
mapped to the constructors of `PyErr` by their message family.
-/

namespace Vcit

/-- Byte strings of the Python source are modelled as lists of naturals. -/
abbrev Bytes := List Nat

/-- Error kinds raised by the source.  Each constructor stands for one family
of exception messages in libvcit.py, plus the builtin Python exception kinds
the source can trigger (TypeError from the tuple index in kvlm_parse,
AssertionError from a failed assert, and so on).  `fuelExhausted` marks a
computation that the source would run forever on; it is unreachable on the
inputs used by the claims. -/
inductive PyErr
  | notGitRepo
  | missingConfig
  | unsupportedVersion
  | notADirectory
  | notEmpty
  | malformedObject
  | unknownObjectKind
  | unimplemented
  | assertionError
  | typeError
  | indexError
  | keyError
  | valueError
  | unicodeDecodeError
  | attributeError
  | fileNotFound
  | fuelExhausted
deriving DecidableEq

instance {ε α : Type} [DecidableEq ε] [DecidableEq α] : DecidableEq (Except ε α) :=
  fun x y =>
    match x, y with
    | .ok a, .ok b =>
      if h : a = b then .isTrue (by rw [h]) else .isFalse (by intro hc; cases hc; exact h rfl)
    | .ok _, .error _ => .isFalse (by intro hc; cases hc)
    | .error _, .ok _ => .isFalse (by intro hc; cases hc)
    | .error a, .error b =>
      if h : a = b then .isTrue (by rw [h]) else .isFalse (by intro hc; cases hc; exact h rfl)

/-- ASCII bytes of a string literal. -/
def bstr (s : String) : Bytes := s.data.map Char.toNat

/-- Decode a byte list back into a string (used for config values). -/
def strOfBytes (b : Bytes) : String := String.mk (b.map Char.ofNat)

/-- Index of the first occurrence of byte `c`, if any (helper for `pyFind`). -/
def findIdxFrom (c : Nat) : Bytes → Option Nat
  | [] => none
  | a :: as => if a = c then some 0 else (findIdxFrom c as).map (· + 1)

/-- Model of Python `bytes.find(c, start)` for a single-byte needle: returns
the lowest index at or after `start` holding `c`, and `-1` when there is
none.  A negative `start` counts from the end, clamped at zero, exactly as in
Python. -/
def pyFind (raw : Bytes) (c : Nat) (start : Int) : Int :=
  let s : Nat := (if start < 0 then max 0 ((raw.length : Int) + start) else start).toNat
  match findIdxFrom c (raw.drop s) with
  | some i => ((s + i : Nat) : Int)
  | none => -1

/-- Model of the Python slice `raw[a:b]` with Python index normalisation:
negative indices count from the end and everything is clamped to the list. -/
def pySlice (raw : Bytes) (a b : Int) : Bytes :=
  let n : Int := raw.length
  let a' : Nat := (if a < 0 then max 0 (n + a) else min a n).toNat
  let b' : Nat := (if b < 0 then max 0 (n + b) else min b n).toNat
  (raw.take b').drop a'

/-- Model of the Python slice `raw[i:]`. -/
def pyDropFrom (raw : Bytes) (i : Int) : Bytes :=
  if i < 0 then raw.drop (max 0 ((raw.length : Int) + i)).toNat else raw.drop i.toNat

/-- Strip leading ASCII spaces. -/
def dropSpaces : Bytes → Bytes
  | [] => []
  | a :: as => if a = 32 then dropSpaces as else a :: as

/-- Strip leading and trailing ASCII spaces, as `int()` and the config reader
tolerate. -/
def trimSpaces (b : Bytes) : Bytes := (dropSpaces ((dropSpaces b.reverse).reverse))

/-- Model of `bytes.decode("ascii")`: succeeds only when every byte is below
128 and returns the bytes unchanged (the content is the same code points). -/
def pyDecodeAscii (b : Bytes) : Except PyErr Bytes :=
  if b.all (fun x => x < 128) then .ok b else .error .unicodeDecodeError

/-- Accumulated value of a digit string (without validity checking). -/
def digitsVal (l : Bytes) : Nat := l.foldl (fun a d => a * 10 + (d - 48)) 0

/-- Check that a byte list is a nonempty run of ASCII decimal digits. -/
def isDigits (l : Bytes) : Bool := !l.isEmpty && l.all (fun d => 48 ≤ d && d ≤ 57)

/-- Model of Python `int(s)` on an ASCII string: surrounding spaces are
allowed, then an optional sign and a nonempty digit run; anything else raises
ValueError. -/
def pyInt (s : Bytes) : Except PyErr Int :=
  let t := trimSpaces s
  if t.head? = some 45 then
    if isDigits t.tail then .ok (-(digitsVal t.tail : Int)) else .error .valueError
  else if t.head? = some 43 then
    if isDigits t.tail then .ok ((digitsVal t.tail : Int)) else .error .valueError
  else if isDigits t then .ok ((digitsVal t : Int)) else .error .valueError

/-- Fuel-driven worker for `decDigits`; the fuel only serves structural
recursion and any fuel above the number is enough. -/
def decDigitsAux : Nat → Nat → Bytes
  | 0, _ => []
  | fuel + 1, n => if n < 10 then [48 + n] else decDigitsAux fuel (n / 10) ++ [48 + n % 10]

/-- ASCII decimal digits of a natural number, the model of
`str(len(data)).encode()`. -/
def decDigits (n : Nat) : Bytes := decDigitsAux (n + 1) n

/-- Fuel-driven worker for `pyReplace`. -/
def pyReplaceAux (old new : Bytes) : Nat → Bytes → Bytes
  | 0, l => l
  | _, [] => []
  | fuel + 1, l@(a :: as) =>
    if old.isPrefixOf l then new ++ pyReplaceAux old new fuel (l.drop old.length)
    else a :: pyReplaceAux old new fuel as

/-- Model of Python `bytes.replace(old, new)`: left-to-right, non-overlapping
replacement (the source only uses nonempty patterns). -/
def pyReplace (l old new : Bytes) : Bytes := pyReplaceAux old new l.length l

/-- Split a byte list on a separator byte, keeping empty pieces, as
`bytes.split` does. -/
def splitOnByte (c : Nat) : Bytes → List Bytes
  | [] => [[]]
  | a :: as =>
    match splitOnByte c as with
    | [] => if a = c then [[], []] else [[a]]
    | h :: t => if a = c then [] :: h :: t else (a :: h) :: t

/-! SHA-1, the 160-bit digest used by `hashlib.sha1` in `object_write`.
Implemented from the public standard (FIPS 180) over `Nat` with explicit
reduction modulo `2 ^ 32`; all recursion is fuel-driven so that concrete
digests reduce inside the kernel. -/

/-- The 32-bit modulus. -/
def M32 : Nat := 4294967296

/-- Rotate a 32-bit word left by `s` bits. -/
def rotl (s x : Nat) : Nat := (((x % M32) <<< s) % M32) ||| ((x % M32) >>> (32 - s))

/-- Big-endian 8-byte encoding of a natural number (the length field of the
SHA-1 padding). -/
def be64 (n : Nat) : Bytes :=
  [(n >>> 56) % 256, (n >>> 48) % 256, (n >>> 40) % 256, (n >>> 32) % 256,
   (n >>> 24) % 256, (n >>> 16) % 256, (n >>> 8) % 256, n % 256]

/-- SHA-1 message padding: a 0x80 byte, zeros up to 56 mod 64, then the
bit length, big-endian. -/
def sha1Pad (msg : Bytes) : Bytes :=
  msg ++ [128] ++ List.replicate ((119 - msg.length % 64) % 64) 0 ++ be64 (msg.length * 8)

/-- Group bytes into big-endian 32-bit words. -/
def bytesToWords : Bytes → List Nat
  | a :: b :: c :: d :: rest => (((a * 256 + b) * 256 + c) * 256 + d) :: bytesToWords rest
  | _ => []

/-- One step of the SHA-1 message schedule, taking the already produced words
most recent first. -/
def schedStep (r : List Nat) : Nat :=
  rotl 1 (Nat.xor (Nat.xor (r.getD 2 0) (r.getD 7 0)) (Nat.xor (r.getD 13 0) (r.getD 15 0)))

/-- Extend the 16 schedule words (given most recent first) by `k` more. -/
def schedExtend : Nat → List Nat → List Nat
  | 0, r => r
  | k + 1, r => schedExtend k (schedStep r :: r)

/-- The five-word SHA-1 state. -/
abbrev Sha1St := Nat × Nat × Nat × Nat × Nat

/-- The round function and constant of round `t`. -/
def sha1FK (t b c d : Nat) : Nat × Nat :=
  if t < 20 then ((b &&& c) ||| ((Nat.xor b 4294967295) &&& d), 1518500249)
  else if t < 40 then (Nat.xor (Nat.xor b c) d, 1859775393)
  else if t < 60 then ((b &&& c) ||| (b &&& d) ||| (c &&& d), 2400959708)
  else (Nat.xor (Nat.xor b c) d, 3395469782)

/-- One SHA-1 round. -/
def sha1Round (st : Sha1St) (tw : Nat × Nat) : Sha1St :=
  let (a, b, c, d, e) := st
  let (f, k) := sha1FK tw.1 b c d
  ((rotl 5 a + f + e + k + tw.2) % M32, a, rotl 30 b, c, d)

/-- Process one 16-word chunk. -/
def sha1Chunk (h : Sha1St) (ws : List Nat) : Sha1St :=
  let sched := (schedExtend 64 ws.reverse).reverse
  let fin := (List.zip (List.range 80) sched).foldl sha1Round h
  ((h.1 + fin.1) % M32, (h.2.1 + fin.2.1) % M32, (h.2.2.1 + fin.2.2.1) % M32,
   (h.2.2.2.1 + fin.2.2.2.1) % M32, (h.2.2.2.2 + fin.2.2.2.2) % M32)

/-- Fuel-driven loop over the 16-word chunks. -/
def sha1Chunks : Nat → Sha1St → List Nat → Sha1St
  | 0, h, _ => h
  | fuel + 1, h, ws =>
    match ws with
    | [] => h
    | _ :: _ => sha1Chunks fuel (sha1Chunk h (ws.take 16)) (ws.drop 16)

/-- The SHA-1 initial state. -/
def sha1Init : Sha1St := (1732584193, 4023233417, 2562383102, 271733878, 3285377520)

/-- The SHA-1 digest of a byte string as a natural number below `2 ^ 160`. -/
def sha1Nat (msg : Bytes) : Nat :=
  let ws := bytesToWords (sha1Pad msg)
  let h := sha1Chunks (ws.length + 1) sha1Init ws
  (((h.1 * M32 + h.2.1) * M32 + h.2.2.1) * M32 + h.2.2.2.1) * M32 + h.2.2.2.2

/-- One lowercase hexadecimal digit. -/
def hexDigit (n : Nat) : Char := if n < 10 then Char.ofNat (48 + n) else Char.ofNat (87 + n)

/-- Fixed-width lowercase hexadecimal digits of a number, most significant
first. -/
def hexFixed : Nat → Nat → List Char
  | 0, _ => []
  | k + 1, n => hexFixed k (n / 16) ++ [hexDigit (n % 16)]

/-- Model of `hashlib.sha1(x).hexdigest()`: forty lowercase hex characters of
the 160-bit digest. -/
def sha1hex (msg : Bytes) : String := String.mk (hexFixed 40 (sha1Nat msg))

/-! Model of the external zlib codec.  The source stores
`zlib.compress(result)` and reads back through `zlib.decompress`; the claims
concern the header logic around the codec, so the lossless codec itself is
modelled as the identity inverse pair. -/

/-- Model of `zlib.compress`. -/
def zlibCompress (b : Bytes) : Bytes := b

/-- Model of `zlib.decompress`, the inverse of `zlibCompress`. -/
def zlibDecompress (b : Bytes) : Except PyErr Bytes := .ok b

/-! The KVLM value shape: a Python value that is either a byte string or a
list of byte strings, inside an insertion-ordered mapping. -/

/-- A stored KVLM value: Python type-puns a scalar bytes value and a list. -/
inductive PyVal
  | bytes (b : Bytes)
  | list (l : List Bytes)
deriving DecidableEq

/-- An insertion-ordered mapping, the model of `collections.OrderedDict` with
byte-string keys. -/
abbrev KVLM := List (Bytes × PyVal)

/-- Look a key up in the ordered mapping. -/
def kvlmGet (kvlm : KVLM) (k : Bytes) : Option PyVal :=
  match kvlm with
  | [] => none
  | e :: rest => if e.1 = k then some e.2 else kvlmGet rest k

/-- Ordered-mapping assignment: replace in place when the key exists,
otherwise append at the end, as `OrderedDict.__setitem__` does. -/
def kvlmSet (kvlm : KVLM) (k : Bytes) (v : PyVal) : KVLM :=
  match kvlm with
  | [] => [(k, v)]
  | e :: rest => if e.1 = k then (k, v) :: rest else e :: kvlmSet rest k v

/-! Configuration model: a minimal stand-in for `configparser` holding
section / key / value triples, a writer producing the INI text the default
writer emits, and a permissive line reader sufficient for files produced by
that writer. -/

/-- Parsed configuration data. -/
structure ConfData where
  sections : List (String × List (String × String))
deriving DecidableEq

/-- Model of `ConfigParser.get`: the value under a section and key; missing
sections or options raise, modelled as `keyError`. -/
def ConfData.get (c : ConfData) (sec key : String) : Except PyErr String :=
  match c.sections.lookup sec with
  | none => .error .keyError
  | some kvs =>
    match kvs.lookup key with
    | none => .error .keyError
    | some v => .ok v

/-- Model of `ConfigParser.write`: a bracketed section header, then
`key = value` lines, then a blank line. -/
def iniWrite (c : ConfData) : Bytes :=
  bstr (c.sections.foldl (fun acc s =>
    acc ++ "[" ++ s.1 ++ "]\n" ++
      (s.2.foldl (fun a kv => a ++ kv.1 ++ " = " ++ kv.2 ++ "\n") "") ++ "\n") "")

/-- Append a fresh empty section. -/
def iniAddSection (c : ConfData) (name : String) : ConfData :=
  ⟨c.sections ++ [(name, [])]⟩

/-- Modify the last element of a list, if any. -/
def modifyLast {α : Type} (f : α → α) : List α → List α
  | [] => []
  | [a] => [f a]
  | a :: b :: rest => a :: modifyLast f (b :: rest)

/-- Add a key to the section opened last. -/
def iniAddKey (c : ConfData) (k v : String) : ConfData :=
  ⟨modifyLast (fun s => (s.1, s.2 ++ [(k, v)])) c.sections⟩

/-- Split a byte line at the first occurrence of a byte, if present. -/
def splitFirst (c : Nat) : Bytes → Option (Bytes × Bytes)
  | [] => none
  | a :: as =>
    if a = c then some ([], as)
    else (splitFirst c as).map (fun p => (a :: p.1, p.2))

/-- One line of the INI reader. -/
def iniStep (c : ConfData) (line : Bytes) : ConfData :=
  let l := trimSpaces line
  if l = [] then c
  else if l.head? = some 91 && l.getLast? = some 93 then
    iniAddSection c (strOfBytes (l.drop 1).dropLast)
  else
    match splitFirst 61 l with
    | some (k, v) => iniAddKey c (strOfBytes (trimSpaces k)) (strOfBytes (trimSpaces v))
    | none => c

/-- Model of `ConfigParser.read` on a file content: a permissive line reader
that accepts exactly the shape `iniWrite` emits (the only configs the claims
read back). -/
def parseIni (b : Bytes) : ConfData := (splitOnByte 10 b).foldl iniStep ⟨[]⟩

/-- The default configuration written by `repo_default_config`. -/
def repo_default_config : ConfData :=
  ⟨[("core", [("repositoryformatversion", "0"), ("filemode", "false"), ("bare", "false")])]⟩

/-! Filesystem model: absolute normalised paths are lists of components
(`os.path.realpath` is modelled as the identity on them; no symbolic links),
and the store is a record of files with contents plus a set of directories. -/

/-- A filesystem path, absolute and normalised, as a list of components. -/
abbrev Path := List String

/-- The filesystem: files with their byte contents, and directories. -/
structure FS where
  files : List (Path × Bytes)
  dirs : List Path
deriving DecidableEq

/-- Is there a directory at the path. -/
def FS.isDir (fs : FS) (p : Path) : Bool := fs.dirs.contains p

/-- Is there a file at the path. -/
def FS.isFile (fs : FS) (p : Path) : Bool := (fs.files.lookup p).isSome

/-- Model of `os.path.exists`. -/
def FS.existsP (fs : FS) (p : Path) : Bool := fs.isDir p || fs.isFile p

/-- Contents of a file, if present. -/
def FS.readFile (fs : FS) (p : Path) : Option Bytes := fs.files.lookup p

/-- Model of `open(p, "w")` followed by a full write: create or truncate. -/
def FS.writeFile (fs : FS) (p : Path) (c : Bytes) : FS :=
  { fs with files := (p, c) :: fs.files.filter (fun e => e.1 ≠ p) }

/-- All nonempty prefixes of a path, shortest first. -/
def allPrefixes : Path → List Path
  | [] => []
  | a :: as => [a] :: (allPrefixes as).map (a :: ·)

/-- Model of `os.makedirs`: create the directory chain, intermediates
included. -/
def FS.makedirs (fs : FS) (p : Path) : FS := { fs with dirs := allPrefixes p ++ fs.dirs }

/-- Whether `os.listdir p` would be nonempty: some entry lies strictly below
`p`. -/
def FS.hasEntryUnder (fs : FS) (p : Path) : Bool :=
  fs.files.any (fun e => p.isPrefixOf e.1 && e.1 ≠ p) ||
    fs.dirs.any (fun d => p.isPrefixOf d && d ≠ p)

/-- Render a path the way `os.path.realpath` renders an absolute path: a
slash before each component.  Never empty for a nonempty path; the source
truth-tests this string in `repo_find`. -/
def pathStr (p : Path) : String := p.foldl (fun a c => a ++ "/" ++ c) ""

/-! The repository handle and the typed object model. -/

/-- The `GitRepository` handle: worktree root, control directory and the
loaded configuration. -/
structure Repo where
  worktree : Path
  gitdir : Path
  conf : ConfData
deriving DecidableEq

/-- The payload of a typed object.  `GitCommit` and `GitBlob` carry the field
their `deserialize` sets; `GitTree` and `GitTag` override nothing in the
source and so carry nothing. -/
inductive GitObjData
  | commit (kvlm : KVLM)
  | tree
  | tag
  | blob (blobdata : Bytes)
deriving DecidableEq

/-- A constructed object: the repo passed to the constructor plus the typed
payload. -/
structure GitObj where
  repo : Option Repo
  data : GitObjData
deriving DecidableEq

/-! The KVLM parser and serializer (`kvlm_parse` / `kvlm_serialize`). -/

/-- The `while True` scan of `kvlm_parse` looking for the first line whose
continuation byte is not a space:
`end = raw.find(b"\n", end+1); if raw[end+1] != ord(" "): break`.
Reading `raw[end+1]` past the last byte raises IndexError; when the find
fails (`end = -1`) Python re-reads `raw[0]` and, if that byte is a space,
loops forever, which the fuel bound reports as `fuelExhausted`. -/
def kvlmLoop (raw : Bytes) : Nat → Int → Except PyErr Int
  | 0, _ => .error .fuelExhausted
  | fuel + 1, e =>
    let e2 := pyFind raw 10 (e + 1)
    if e2 + 1 ≥ (raw.length : Int) then .error .indexError
    else if raw.getD (e2 + 1).toNat 0 = 32 then kvlmLoop raw fuel e2
    else .ok e2

/-- Model of `kvlm_parse(raw, start, dct)`.  The message branch asserts that
the current offset sits on a newline and stores the remainder under the empty
key.  The key-value branch runs the continuation scan and then evaluates
`raw[spc+1, end]` — a tuple index into bytes, which always raises TypeError,
so the dictionary insertion and the recursive call after it are unreachable
and the function never recurses. -/
def kvlm_parse (raw : Bytes) (start : Nat) (dct : KVLM) : Except PyErr KVLM :=
  let spc := pyFind raw 32 (start : Int)
  let nl := pyFind raw 10 (start : Int)
  if spc < 0 ∨ nl < spc then
    if nl ≠ (start : Int) then .error .assertionError
    else .ok (kvlmSet dct [] (.bytes (raw.drop (start + 1))))
  else
    match kvlmLoop raw (raw.length + 2) (start : Int) with
    | .error e => .error e
    | .ok _ => .error .typeError

/-- Normalise a stored value to a list, as the serializer does. -/
def normVal : PyVal → List Bytes
  | .bytes b => [b]
  | .list l => l

/-- Model of `kvlm_serialize(kvlm)`: emit every nonempty key in insertion
order, folding each value line with `"\n"` expanded to `"\n "`, then a blank
line and the message stored under the empty key.  A missing empty key raises
KeyError; a list stored under it makes `b"\n" + value` raise TypeError. -/
def kvlm_serialize (kvlm : KVLM) : Except PyErr Bytes :=
  let ret := kvlm.foldl (fun ret kv =>
    if kv.1 = ([] : Bytes) then ret
    else (normVal kv.2).foldl
      (fun r v => r ++ kv.1 ++ [32] ++ pyReplace v [10] [10, 32] ++ [10]) ret) []
  match kvlmGet kvlm [] with
  | none => .error .keyError
  | some (.list _) => .error .typeError
  | some (.bytes m) => .ok (ret ++ [10] ++ m)

/-! Object constructors.  Python constructs `C(repo, data)`; a non-None
`data` is passed to `deserialize`, whose base-class version raises
`Unimplemented!`.  Only `GitCommit` and `GitBlob` override it. -/

/-- Model of `GitCommit(repo, data)`. -/
def gitCommitMk (repo : Option Repo) (data : Bytes) : Except PyErr GitObj :=
  (kvlm_parse data 0 []).map (fun d => ⟨repo, .commit d⟩)

/-- Model of `GitTree(repo, data)`: the class overrides nothing, so the base
`deserialize` raises `Unimplemented!`. -/
def gitTreeMk (_repo : Option Repo) (_data : Bytes) : Except PyErr GitObj :=
  .error .unimplemented

/-- Model of `GitTag(repo, data)`: the class overrides nothing, so the base
`deserialize` raises `Unimplemented!`. -/
def gitTagMk (_repo : Option Repo) (_data : Bytes) : Except PyErr GitObj :=
  .error .unimplemented

/-- Model of `GitBlob(repo, data)`: `deserialize` stores the bytes
unchanged. -/
def gitBlobMk (repo : Option Repo) (data : Bytes) : Except PyErr GitObj :=
  .ok ⟨repo, .blob data⟩

/-- Model of `obj.serialize()`: blobs return their bytes, commits delegate to
the KVLM serializer, trees and tags fall back to the base class and raise
`Unimplemented!`. -/
def GitObj.serializeFn : GitObj → Except PyErr Bytes
  | ⟨_, .commit kvlm⟩ => kvlm_serialize kvlm
  | ⟨_, .blob d⟩ => .ok d
  | ⟨_, .tree⟩ => .error .unimplemented
  | ⟨_, .tag⟩ => .error .unimplemented

/-- Model of reading `obj.fmt`: only `GitCommit` and `GitBlob` declare the
class attribute; on a tree or tag the lookup raises AttributeError. -/
def GitObj.fmtB : GitObj → Except PyErr Bytes
  | ⟨_, .commit _⟩ => .ok (bstr "commit")
  | ⟨_, .blob _⟩ => .ok (bstr "blob")
  | ⟨_, .tree⟩ => .error .attributeError
  | ⟨_, .tag⟩ => .error .attributeError

/-- The constructor dispatch shared by `object_read` and `object_hash`: pick
the class for a kind name, any other name raising the unknown-type error. -/
def decode_as (fmt : Bytes) (repo : Option Repo) (data : Bytes) : Except PyErr GitObj :=
  if fmt = bstr "commit" then gitCommitMk repo data
  else if fmt = bstr "tree" then gitTreeMk repo data
  else if fmt = bstr "tag" then gitTagMk repo data
  else if fmt = bstr "blob" then gitBlobMk repo data
  else .error .unknownObjectKind

/-! Repository locator functions. -/

/-- Model of `repo_path(repo, *path)`: join under the control directory. -/
def repo_path (repo : Repo) (segs : List String) : Path := repo.gitdir ++ segs

/-- Model of `repo_dir(repo, *path, mkdir)`: return the directory when
present, raise when the path holds a non-directory, create the chain when
`mkdir` is set, otherwise return nothing. -/
def repo_dir (repo : Repo) (segs : List String) (mkdir : Bool) (fs : FS) :
    Except PyErr (Option Path × FS) :=
  let path := repo_path repo segs
  if fs.existsP path then
    if fs.isDir path then .ok (some path, fs) else .error .notADirectory
  else if mkdir then .ok (some path, fs.makedirs path)
  else .ok (none, fs)

/-- Model of `repo_file(repo, *path, mkdir)`: ensure the parent directory via
`repo_dir` and return the full path when the parent resolved. -/
def repo_file (repo : Repo) (segs : List String) (mkdir : Bool) (fs : FS) :
    Except PyErr (Option Path × FS) :=
  (repo_dir repo segs.dropLast mkdir fs).map (fun r =>
    match r.1 with
    | some _ => (some (repo_path repo segs), r.2)
    | none => (none, r.2))

/-- Model of `GitRepository.__init__(path, force)`: record worktree and
control directory, reject a missing control directory unless forced, locate
and read the configuration file, and check the declared format version in
non-force mode. -/
def gitRepositoryMk (fs : FS) (path : Path) (force : Bool) : Except PyErr Repo :=
  let gitdir := path ++ [".git"]
  if !(force || fs.isDir gitdir) then .error .notGitRepo
  else
    let cfStep : Except PyErr (Option Path) :=
      if fs.existsP gitdir then
        if fs.isDir gitdir then .ok (some (gitdir ++ ["config"])) else .error .notADirectory
      else .ok none
    match cfStep with
    | .error e => .error e
    | .ok cf =>
      let confE : Except PyErr ConfData :=
        match cf with
        | some cfp =>
          if fs.existsP cfp then .ok (parseIni ((fs.readFile cfp).getD []))
          else if !force then .error .missingConfig
          else .ok ⟨[]⟩
        | none => if !force then .error .missingConfig else .ok ⟨[]⟩
      match confE with
      | .error e => .error e
      | .ok conf =>
        if !force then
          match conf.get "core" "repositoryformatversion" with
          | .error e => .error e
          | .ok v =>
            match pyInt (bstr v) with
            | .error e => .error e
            | .ok vers =>
              if vers ≠ 0 then .error .unsupportedVersion else .ok ⟨path, gitdir, conf⟩
        else .ok ⟨path, gitdir, conf⟩

/-- The default description file content. -/
def descriptionText : Bytes :=
  bstr "Unnamed repository; edit this file \x27description\x27 to name the repository.\n"

/-- The default symbolic HEAD content. -/
def headText : Bytes := bstr "ref: refs/heads/master\n"

/-- Model of `repo_create(path)`: open a forced handle, validate the worktree
(absent, or an empty directory), create the skeleton directories (each
created path asserted non-null), and write the description, HEAD and default
configuration files.  A skeleton `repo_dir` returning nothing would fail the
assert; a `repo_file` returning nothing would make `open(None)` raise
TypeError. -/
def repo_create (path : Path) (fs : FS) : Except PyErr (Repo × FS) :=
  match gitRepositoryMk fs path true with
  | .error e => .error e
  | .ok repo =>
    match
      (if fs.existsP repo.worktree then
        if !fs.isDir repo.worktree then Except.error PyErr.notADirectory
        else if fs.hasEntryUnder repo.worktree then Except.error PyErr.notEmpty
        else Except.ok fs
      else Except.ok (fs.makedirs repo.worktree)) with
    | .error e => .error e
    | .ok fs1 =>
      match repo_dir repo ["branches"] true fs1 with
      | .error e => .error e
      | .ok (d1, fs2) =>
        if !d1.isSome then .error .assertionError
        else
          match repo_dir repo ["objects"] true fs2 with
          | .error e => .error e
          | .ok (d2, fs3) =>
            if !d2.isSome then .error .assertionError
            else
              match repo_dir repo ["refs", "tags"] true fs3 with
              | .error e => .error e
              | .ok (d3, fs4) =>
                if !d3.isSome then .error .assertionError
                else
                  match repo_dir repo ["refs", "heads"] true fs4 with
                  | .error e => .error e
                  | .ok (d4, fs5) =>
                    if !d4.isSome then .error .assertionError
                    else
                      match repo_file repo ["description"] false fs5 with
                      | .error e => .error e
                      | .ok (none, _) => .error .typeError
                      | .ok (some p1, fs6) =>
                        match repo_file repo ["HEAD"] false
                            (fs6.writeFile p1 descriptionText) with
                        | .error e => .error e
                        | .ok (none, _) => .error .typeError
                        | .ok (some p2, fs8) =>
                          match repo_file repo ["config"] false
                              (fs8.writeFile p2 headText) with
                          | .error e => .error e
                          | .ok (none, _) => .error .typeError
                          | .ok (some p3, fs10) =>
                            .ok (repo, fs10.writeFile p3 (iniWrite repo_default_config))

/-- Fuel-driven worker for `repo_find`; the fuel dominates the walk length
and never runs out on the paths the function is applied to. -/
def repo_findAux (fs : FS) : Nat → Path → Bool → Except PyErr (Option Repo)
  | 0, _, _ => .error .fuelExhausted
  | fuel + 1, path, required =>
    if pathStr (path ++ [".git"]) ≠ "" then
      (gitRepositoryMk fs path false).map some
    else
      match path with
      | [] => if required then .error .notGitRepo else .ok none
      | _ :: _ => repo_findAux fs fuel path.dropLast required

/-- Model of `repo_find(path, required)`.  The source guards the first branch
with `os.path.realpath(os.path.join(path, ".git"))`, a string that is never
empty and hence always truthy, so the branch opening a handle at the start
path is always taken and the upward walk below it is unreachable. -/
def repo_find (fs : FS) (path : Path) (required : Bool) : Except PyErr (Option Repo) :=
  repo_findAux fs (path.length + 1) path required

/-! The object codec. -/

/-- The header-plus-payload byte sequence `fmt + b" " + ascii(n) + b"\x00" +
payload` that is hashed and stored. -/
def headerWith (fmt : Bytes) (n : Nat) (payload : Bytes) : Bytes :=
  fmt ++ [32] ++ decDigits n ++ [0] ++ payload

/-- First two characters of an identifier, the fan-out directory name. -/
def shaTake2 (s : String) : String := String.mk (s.data.take 2)

/-- Remaining characters of an identifier, the file name. -/
def shaDrop2 (s : String) : String := String.mk (s.data.drop 2)

/-- The loose-object path of an identifier under a handle. -/
def objPath (repo : Repo) (sha : String) : Path :=
  repo.gitdir ++ ["objects", shaTake2 sha, shaDrop2 sha]

/-- Model of `object_write(obj, actually_write)`: serialize, prepend the
header, hash, and, only when `actually_write` is truthy, compress and store
under the two-level path (creating directories), returning the identifier in
every case.  With no handle on the object the path computation would read an
attribute of None. -/
def object_write (obj : GitObj) (actually_write : Bool) (fs : FS) :
    Except PyErr (String × FS) :=
  match obj.serializeFn with
  | .error e => .error e
  | .ok data =>
    match obj.fmtB with
    | .error e => .error e
    | .ok fmtb =>
      let result := headerWith fmtb data.length data
      let sha := sha1hex result
      if actually_write then
        match obj.repo with
        | none => .error .attributeError
        | some r =>
          match repo_file r ["objects", shaTake2 sha, shaDrop2 sha] true fs with
          | .error e => .error e
          | .ok (some p, fs') => .ok (sha, fs'.writeFile p (zlibCompress result))
          | .ok (none, _) => .error .typeError
      else .ok (sha, fs)

/-- Model of `object_read(repo, sha)`: open and decompress the stored bytes,
split the header at the first space and the first NUL, decode and parse the
declared size, reject a size that differs from the remaining byte count, and
dispatch on the kind name. -/
def object_read (repo : Repo) (sha : String) (fs : FS) : Except PyErr GitObj :=
  match fs.readFile (objPath repo sha) with
  | none => .error .fileNotFound
  | some contents =>
    match zlibDecompress contents with
    | .error e => .error e
    | .ok raw =>
      let x := pyFind raw 32 0
      let fmtb := pySlice raw 0 x
      let y := pyFind raw 0 x
      match pyDecodeAscii (pySlice raw x y) with
      | .error e => .error e
      | .ok sizeBytes =>
        match pyInt sizeBytes with
        | .error e => .error e
        | .ok size =>
          if size ≠ (raw.length : Int) - y - 1 then .error .malformedObject
          else decode_as fmtb (some repo) (pyDropFrom raw (y + 1))

/-- Python truthiness of the optional handle `object_hash` forwards to
`object_write`: None is falsy, a repository object is truthy. -/
def truthyOpt : Option Repo → Bool
  | none => false
  | some _ => true

/-- Model of `object_hash(fd, fmt, repo)`: construct the typed object for the
kind name and call `object_write(obj, repo)` — the handle itself standing as
the persistence flag. -/
def object_hash (data : Bytes) (fmt : Bytes) (repo : Option Repo) (fs : FS) :
    Except PyErr (String × FS) :=
  match decode_as fmt repo data with
  | .error e => .error e
  | .ok obj => object_write obj (truthyOpt repo) fs

/-! Basic facts about the byte primitives. -/

lemma findIdxFrom_append_cons {c : Nat} (pre rest : Bytes) (h : ∀ a ∈ pre, a ≠ c) :
    findIdxFrom c (pre ++ c :: rest) = some pre.length := by
  induction pre with
  | nil => simp [findIdxFrom]
  | cons a as ih =>
    have ha : a ≠ c := h a (by simp)
    simp [findIdxFrom, ha, ih (fun x hx => h x (by simp [hx]))]

lemma pyFind_of_drop {raw mid rest : Bytes} {c : Nat} (s : Nat)
    (hd : raw.drop s = mid ++ c :: rest) (hm : ∀ a ∈ mid, a ≠ c) :
    pyFind raw c (s : Int) = ((s + mid.length : Nat) : Int) := by
  have h0 : ¬((s : Int) < 0) := by omega
  simp only [pyFind, h0, if_false, Int.toNat_ofNat, hd,
    findIdxFrom_append_cons _ _ hm]

lemma pySlice_prefix (pre rest : Bytes) :
    pySlice (pre ++ rest) 0 ((pre.length : Nat) : Int) = pre := by
  have hmin : min ((pre.length : Nat) : Int) ((pre ++ rest).length : Int) =
      ((pre.length : Nat) : Int) := by
    simp only [List.length_append]; omega
  simp only [pySlice, hmin]
  norm_num
  exact List.take_left pre rest

lemma pySlice_mid (pre mid suf : Bytes) :
    pySlice (pre ++ mid ++ suf) ((pre.length : Nat) : Int)
      ((pre.length + mid.length : Nat) : Int) = mid := by
  have hmin1 : min ((pre.length : Nat) : Int) ((pre ++ mid ++ suf).length : Int) =
      ((pre.length : Nat) : Int) := by
    simp only [List.length_append]; omega
  have hmin2 : min ((pre.length + mid.length : Nat) : Int)
      ((pre ++ mid ++ suf).length : Int) = ((pre.length + mid.length : Nat) : Int) := by
    simp only [List.length_append]; omega
  have hneg1 : ¬(((pre.length : Nat) : Int) < 0) := by omega
  have hneg2 : ¬(((pre.length + mid.length : Nat) : Int) < 0) := by omega
  simp only [pySlice, hneg1, hneg2, if_false, hmin1, hmin2, Int.toNat_ofNat]
  have htake : (pre ++ mid ++ suf).take (pre.length + mid.length) = pre ++ mid := by
    have := List.take_left (pre ++ mid) suf
    simpa [List.length_append] using this
  rw [htake]
  exact List.drop_left pre mid

lemma pyDropFrom_append (pre suf : Bytes) :
    pyDropFrom (pre ++ suf) ((pre.length : Nat) : Int) = suf := by
  have hneg : ¬(((pre.length : Nat) : Int) < 0) := by omega
  simp only [pyDropFrom, hneg, if_false, Int.toNat_ofNat]
  exact List.drop_left pre suf

lemma digitsVal_append_one (l : Bytes) (x : Nat) :
    digitsVal (l ++ [x]) = digitsVal l * 10 + (x - 48) := by
  simp [digitsVal, List.foldl_append]

lemma decDigitsAux_spec : ∀ fuel n, n < fuel →
    decDigitsAux fuel n ≠ [] ∧ (∀ d ∈ decDigitsAux fuel n, 48 ≤ d ∧ d ≤ 57) ∧
      digitsVal (decDigitsAux fuel n) = n := by
  intro fuel
  induction fuel with
  | zero => intro n hn; omega
  | succ fuel ih =>
    intro n hn
    by_cases h10 : n < 10
    · refine ⟨by simp [decDigitsAux, h10], ?_, ?_⟩
      · intro d hd
        simp [decDigitsAux, h10] at hd
        omega
      · simp [decDigitsAux, h10, digitsVal]
    · have hdiv : n / 10 < fuel := by
        have h1 : n / 10 < n := Nat.div_lt_self (by omega) (by omega)
        omega
      obtain ⟨hne, hbd, hval⟩ := ih (n / 10) hdiv
      have heq : decDigitsAux (fuel + 1) n =
          decDigitsAux fuel (n / 10) ++ [48 + n % 10] := by
        simp [decDigitsAux, h10]
      refine ⟨by simp [heq], ?_, ?_⟩
      · intro d hd
        rw [heq, List.mem_append] at hd
        rcases hd with hd | hd
        · exact hbd d hd
        · simp at hd
          have : n % 10 < 10 := Nat.mod_lt _ (by omega)
          omega
      · rw [heq, digitsVal_append_one, hval]
        have := Nat.div_add_mod n 10
        omega

lemma decDigits_ne_nil (n : Nat) : decDigits n ≠ [] :=
  (decDigitsAux_spec (n + 1) n (by omega)).1

lemma decDigits_bounds (n : Nat) : ∀ d ∈ decDigits n, 48 ≤ d ∧ d ≤ 57 :=
  (decDigitsAux_spec (n + 1) n (by omega)).2.1

lemma digitsVal_decDigits (n : Nat) : digitsVal (decDigits n) = n :=
  (decDigitsAux_spec (n + 1) n (by omega)).2.2

lemma isDigits_decDigits (n : Nat) : isDigits (decDigits n) = true := by
  have h1 := decDigits_ne_nil n
  have h2 := decDigits_bounds n
  simp only [isDigits, Bool.and_eq_true, List.all_eq_true]
  constructor
  · simpa [List.isEmpty_iff] using h1
  · intro d hd
    have := h2 d hd
    simp only [Bool.and_eq_true, decide_eq_true_eq]
    omega

lemma dropSpaces_cons_ne {x : Nat} (r : Bytes) (hx : x ≠ 32) :
    dropSpaces (x :: r) = x :: r := by
  simp [dropSpaces, hx]

lemma trimSpaces_space_digits (l : Bytes) (hne : l ≠ [])
    (hl : ∀ d ∈ l, 48 ≤ d ∧ d ≤ 57) : trimSpaces (32 :: l) = l := by
  obtain ⟨x, r, hxr⟩ : ∃ x r, l.reverse = x :: r := by
    cases hrev : l.reverse with
    | nil => exact absurd (List.reverse_eq_nil_iff.mp hrev) hne
    | cons x r => exact ⟨x, r, rfl⟩
  have hx : x ≠ 32 := by
    have hmem : x ∈ l := by
      rw [← List.mem_reverse, hxr]; simp
    have := hl x hmem; omega
  have h1 : dropSpaces ((32 :: l).reverse) = (32 :: l).reverse := by
    rw [List.reverse_cons, hxr]
    exact dropSpaces_cons_ne _ hx
  unfold trimSpaces
  rw [h1, List.reverse_reverse]
  obtain ⟨h, t, hht⟩ : ∃ h t, l = h :: t := by
    cases l with
    | nil => exact absurd rfl hne
    | cons h t => exact ⟨h, t, rfl⟩
  have hh : h ≠ 32 := by
    have := hl h (by rw [hht]; simp); omega
  rw [hht]
  show dropSpaces (32 :: h :: t) = h :: t
  simp [dropSpaces, hh]

lemma pyInt_space_decDigits (n : Nat) : pyInt (32 :: decDigits n) = .ok ((n : Nat) : Int) := by
  have ht := trimSpaces_space_digits (decDigits n) (decDigits_ne_nil n) (decDigits_bounds n)
  obtain ⟨h, t, hht⟩ : ∃ h t, decDigits n = h :: t := by
    cases hd : decDigits n with
    | nil => exact absurd hd (decDigits_ne_nil n)
    | cons h t => exact ⟨h, t, rfl⟩
  have hh := decDigits_bounds n h (by rw [hht]; simp)
  have h45 : ¬((decDigits n).head? = some 45) := by
    rw [hht]; simp; omega
  have h43 : ¬((decDigits n).head? = some 43) := by
    rw [hht]; simp; omega
  simp only [pyInt, ht, h45, h43, if_false, isDigits_decDigits, if_true,
    digitsVal_decDigits]

/-! Facts about the KVLM functions and the object constructors. -/

/-- A kind name fit for the stored header: no space and no NUL byte. -/
def fmtOk (f : Bytes) : Bool := f.all (fun b => b ≠ 32 && b ≠ 0)

/-- The four kind names the dispatch knows. -/
def knownFmts : List Bytes := [bstr "commit", bstr "tree", bstr "tag", bstr "blob"]

lemma findIdxFrom_eq_zero {c : Nat} {l : Bytes} (h : findIdxFrom c l = some 0) :
    l.head? = some c := by
  cases l with
  | nil => simp [findIdxFrom] at h
  | cons a as =>
    by_cases hac : a = c
    · simp [hac]
    · simp only [findIdxFrom, hac, if_false] at h
      cases hfa : findIdxFrom c as with
      | none => rw [hfa] at h; simp at h
      | some i => rw [hfa] at h; simp at h

lemma pyFind_zero_eq (raw : Bytes) (c : Nat) :
    pyFind raw c ((0 : Nat) : Int) =
      (match findIdxFrom c raw with
       | some i => ((i : Nat) : Int)
       | none => -1) := by
  have h0 : ¬(((0 : Nat) : Int) < 0) := by omega
  simp only [pyFind, h0, if_false, Int.toNat_ofNat, List.drop_zero]
  cases findIdxFrom c raw with
  | none => rfl
  | some i => simp

lemma kvlm_parse_ok_shape {raw : Bytes} {d : KVLM}
    (h : kvlm_parse raw 0 [] = .ok d) :
    raw.head? = some 10 ∧ d = [([], .bytes (raw.drop 1))] := by
  unfold kvlm_parse at h
  by_cases hc : pyFind raw 32 ((0 : Nat) : Int) < 0 ∨
      pyFind raw 10 ((0 : Nat) : Int) < pyFind raw 32 ((0 : Nat) : Int)
  · rw [if_pos hc] at h
    by_cases hnl : pyFind raw 10 ((0 : Nat) : Int) ≠ ((0 : Nat) : Int)
    · rw [if_pos hnl] at h; cases h
    · rw [if_neg hnl] at h
      push_neg at hnl
      rw [pyFind_zero_eq] at hnl
      have hfind : findIdxFrom 10 raw = some 0 := by
        cases hfa : findIdxFrom 10 raw with
        | none => rw [hfa] at hnl; simp at hnl
        | some i =>
          rw [hfa] at hnl
          simp only [Nat.cast_zero] at hnl
          have : i = 0 := by omega
          rw [this]
      refine ⟨findIdxFrom_eq_zero hfind, ?_⟩
      cases h
      rfl
  · rw [if_neg hc] at h
    cases hl : kvlmLoop raw (raw.length + 2) ((0 : Nat) : Int) with
    | error e => rw [hl] at h; cases h
    | ok v => rw [hl] at h; cases h

lemma kvlm_parse_newline (m : Bytes) :
    kvlm_parse (10 :: m) 0 [] = .ok [(([] : Bytes), .bytes m)] := by
  have hnl : pyFind (10 :: m) 10 ((0 : Nat) : Int) = 0 := by
    simp [pyFind, findIdxFrom]
  have hcond : pyFind (10 :: m) 32 ((0 : Nat) : Int) < 0 ∨
      pyFind (10 :: m) 10 ((0 : Nat) : Int) < pyFind (10 :: m) 32 ((0 : Nat) : Int) := by
    rw [hnl]
    rcases hf : findIdxFrom 32 m with _ | i
    · left; simp [pyFind, findIdxFrom, hf]
    · right
      simp only [pyFind, findIdxFrom]
      norm_num
      rw [hf]
      simp
  unfold kvlm_parse
  rw [if_pos hcond, if_neg (by rw [hnl]; simp)]
  rfl

lemma kvlm_serialize_single (m : Bytes) :
    kvlm_serialize [(([] : Bytes), .bytes m)] = .ok (10 :: m) := rfl

lemma decode_as_ok {f : Bytes} {r : Option Repo} {b : Bytes} {o : GitObj}
    (h : decode_as f r b = .ok o) :
    o.serializeFn = .ok b ∧ o.fmtB = .ok f ∧ o.repo = r ∧ fmtOk f = true := by
  unfold decode_as at h
  split_ifs at h with h1 h2 h3 h4
  · cases hp : kvlm_parse b 0 [] with
    | error e => rw [gitCommitMk, hp] at h; cases h
    | ok d =>
      rw [gitCommitMk, hp] at h
      cases h
      obtain ⟨hhead, hd⟩ := kvlm_parse_ok_shape hp
      obtain ⟨t, hbt⟩ : ∃ t, b = 10 :: t := by
        cases b with
        | nil => simp at hhead
        | cons a t => simp at hhead; exact ⟨t, by rw [hhead]⟩
      subst hbt
      simp only [List.drop_succ_cons, List.drop_zero] at hd
      refine ⟨?_, by simp [GitObj.fmtB, h1], rfl, by rw [h1]; decide⟩
      rw [GitObj.serializeFn, hd]
      exact kvlm_serialize_single t
  · cases h
  · cases h
  · cases h
    exact ⟨rfl, by simp [GitObj.fmtB, h4], rfl, by rw [h4]; decide⟩

lemma object_write_false {o : GitObj} {data fmtb : Bytes} (fs : FS)
    (hser : o.serializeFn = .ok data) (hfmt : o.fmtB = .ok fmtb) :
    object_write o false fs = .ok (sha1hex (headerWith fmtb data.length data), fs) := by
  simp only [object_write, hser, hfmt]
  rfl

/-! Claim theorems. -/

/-- C1: the round-trip law `serialize(parse(raw)) == raw` fails on the code.
Any well-formed record with at least one key-value line — one key with one
value, one key with a folded multi-line value, or a repeated key — makes
`kvlm_parse` raise TypeError at the tuple index `raw[spc+1, end]` before
anything is inserted, so the serializer is never reached.  Only the
message-only record parses, and for that case the round trip does hold. -/
theorem c1_kvlm_roundtrip_code_bug :
    kvlm_parse (bstr "tree abc\n\nmsg") 0 [] = .error .typeError ∧
    kvlm_parse (bstr "k v1\n v2\n\nmsg") 0 [] = .error .typeError ∧
    kvlm_parse (bstr "parent a\nparent b\n\nmsg") 0 [] = .error .typeError ∧
    (kvlm_parse (bstr "\nmsg") 0 []).bind kvlm_serialize = .ok (bstr "\nmsg") :=
  ⟨by decide, by decide, by decide, by decide⟩

/-- A store holding an initialized repository at /repo, with a directory
/repo/sub inside its worktree (and no control directory of its own). -/
def fsRepoAbove : FS :=
  ⟨[(["repo", ".git", "config"], iniWrite repo_default_config)],
   [["repo"], ["repo", ".git"], ["repo", "sub"]]⟩

/-- C2: repository discovery never walks upward.  The guard in `repo_find`
truth-tests `os.path.realpath(os.path.join(path, ".git"))`, a string that is
never empty, so the first branch is always taken: starting from /repo/sub
inside the repository at /repo the function opens a handle at the start
directory and fails with the not-a-repository error instead of returning the
ancestor handle; starting outside any repository with required set to false
it likewise raises instead of returning absent.  The repository at /repo is
genuinely discoverable — opening it directly succeeds — so the walk, had it
been reachable, would have found it. -/
theorem c2_repo_find_code_bug :
    repo_find fsRepoAbove ["repo", "sub"] true = .error .notGitRepo ∧
    repo_find (⟨[], []⟩ : FS) ["a", "b"] false = .error .notGitRepo ∧
    repo_find fsRepoAbove ["repo"] true =
      .ok (some ⟨["repo"], ["repo", ".git"], parseIni (iniWrite repo_default_config)⟩) :=
  ⟨by decide, by decide, by decide⟩

/-- C3 counterexample: constructing a Tag from the well-formed KVLM payload
`b"\nmsg"` signals Unimplemented, refuting the claim that Tag, like Commit,
delegates to the KVLM parser. -/
theorem c3_tag_counterexample :
    gitTagMk none (bstr "\nmsg") = .error .unimplemented := rfl

/-- C3 (amended): Commit serialize delegates to the KVLM serializer and
Commit deserialize to the KVLM parser, but Tag overrides neither operation:
constructing a Tag from any payload, or serializing one, signals
Unimplemented through the base class. -/
theorem c3_commit_delegates_tag_does_not (repo : Option Repo) (kvlm : KVLM) (data : Bytes) :
    GitObj.serializeFn ⟨repo, .commit kvlm⟩ = kvlm_serialize kvlm ∧
    gitCommitMk repo data = (kvlm_parse data 0 []).map (fun d => ⟨repo, .commit d⟩) ∧
    gitTagMk repo data = .error .unimplemented ∧
    GitObj.serializeFn ⟨repo, .tag⟩ = .error .unimplemented :=
  ⟨rfl, rfl, rfl, rfl⟩

/-! Bound and injectivity facts for the identifier scheme. -/

/-- All five state words fit in 32 bits. -/
def sha1Bound (h : Sha1St) : Prop :=
  h.1 < M32 ∧ h.2.1 < M32 ∧ h.2.2.1 < M32 ∧ h.2.2.2.1 < M32 ∧ h.2.2.2.2 < M32

lemma sha1Chunk_bound (h : Sha1St) (ws : List Nat) : sha1Bound (sha1Chunk h ws) := by
  have hM : 0 < M32 := by decide
  exact ⟨Nat.mod_lt _ hM, Nat.mod_lt _ hM, Nat.mod_lt _ hM, Nat.mod_lt _ hM, Nat.mod_lt _ hM⟩

lemma sha1Chunks_bound : ∀ fuel (h : Sha1St) ws, sha1Bound h →
    sha1Bound (sha1Chunks fuel h ws) := by
  intro fuel
  induction fuel with
  | zero => intro h ws hb; exact hb
  | succ fuel ih =>
    intro h ws hb
    cases ws with
    | nil => exact hb
    | cons w rest => exact ih _ _ (sha1Chunk_bound h _)

lemma sha1Nat_lt (msg : Bytes) : sha1Nat msg < 2 ^ 160 := by
  have hb := sha1Chunks_bound (bytesToWords (sha1Pad msg)).length.succ sha1Init
    (bytesToWords (sha1Pad msg)) (by constructor <;> decide)
  obtain ⟨h1, h2, h3, h4, h5⟩ := hb
  unfold sha1Nat
  simp only [M32] at *
  have hp : (2 : Nat) ^ 160 =
      4294967296 * 4294967296 * 4294967296 * 4294967296 * 4294967296 := by norm_num
  rw [hp]
  set x := sha1Chunks ((bytesToWords (sha1Pad msg)).length + 1) sha1Init
    (bytesToWords (sha1Pad msg))
  nlinarith [h1, h2, h3, h4, h5]

lemma hexFixed_length : ∀ k n, (hexFixed k n).length = k := by
  intro k
  induction k with
  | zero => intro n; rfl
  | succ k ih => intro n; simp [hexFixed, ih]

lemma sha1hex_length (msg : Bytes) : (sha1hex msg).length = 40 := by
  show (String.mk (hexFixed 40 (sha1Nat msg))).length = 40
  simp [String.length, hexFixed_length]

lemma append_sep_inj {c : Nat} : ∀ {a1 a2 r1 r2 : Bytes},
    a1 ++ c :: r1 = a2 ++ c :: r2 → (∀ x ∈ a1, x ≠ c) → (∀ x ∈ a2, x ≠ c) →
    a1 = a2 ∧ r1 = r2 := by
  intro a1
  induction a1 with
  | nil =>
    intro a2 r1 r2 h h1 h2
    cases a2 with
    | nil => simp at h; exact ⟨rfl, h⟩
    | cons b bs =>
      simp at h
      exact absurd h.1.symm (h2 b (by simp))
  | cons a as ih =>
    intro a2 r1 r2 h h1 h2
    cases a2 with
    | nil =>
      simp at h
      exact absurd h.1 (h1 a (by simp))
    | cons b bs =>
      simp at h
      obtain ⟨hab, hrest⟩ := h
      obtain ⟨he, hr⟩ := ih hrest (fun x hx => h1 x (by simp [hx]))
        (fun x hx => h2 x (by simp [hx]))
      exact ⟨by rw [hab, he], hr⟩

lemma fmtOk_no_space {f : Bytes} (hf : fmtOk f = true) : ∀ x ∈ f, x ≠ 32 := by
  intro x hx
  have := List.all_eq_true.mp hf x hx
  simp only [Bool.and_eq_true, decide_eq_true_eq] at this
  exact this.1

lemma fmtOk_no_nul {f : Bytes} (hf : fmtOk f = true) : ∀ x ∈ f, x ≠ 0 := by
  intro x hx
  have := List.all_eq_true.mp hf x hx
  simp only [Bool.and_eq_true, decide_eq_true_eq] at this
  exact this.2

lemma headerWith_reassoc (f p : Bytes) (n : Nat) :
    headerWith f n p = f ++ 32 :: (decDigits n ++ 0 :: p) := by
  simp [headerWith]

lemma headerWith_inj {f1 f2 p1 p2 : Bytes} (hf1 : fmtOk f1 = true) (hf2 : fmtOk f2 = true)
    (h : headerWith f1 p1.length p1 = headerWith f2 p2.length p2) :
    f1 = f2 ∧ p1 = p2 := by
  rw [headerWith_reassoc, headerWith_reassoc] at h
  obtain ⟨hf, hrest⟩ := append_sep_inj h (fmtOk_no_space hf1) (fmtOk_no_space hf2)
  have hd1 : ∀ x ∈ decDigits p1.length, x ≠ 0 := by
    intro x hx; have := decDigits_bounds _ x hx; omega
  have hd2 : ∀ x ∈ decDigits p2.length, x ≠ 0 := by
    intro x hx; have := decDigits_bounds _ x hx; omega
  obtain ⟨_, hp⟩ := append_sep_inj hrest hd1 hd2
  exact ⟨hf, hp⟩

/-- C5 (amended): the identifier returned by `object_write` — persisted or
not, and whatever the store state — is the forty-character lowercase
hexadecimal SHA-1 digest of exactly `kind + b" " + ascii(len(payload)) +
b"\x00" + payload`.  Two blobs with the identical payload receive the
identical identifier regardless of write order or store state, and any
change to the payload, the payload length or the kind name changes the
hashed byte sequence, since the header encoding is injective for the known
kind names; distinct sequences map to distinct identifiers only up to digest
collisions, which a 160-bit digest cannot avoid in principle. -/
theorem c5_identifier_scheme (o : GitObj) (fs fs2 : FS) (data fmtb p p1 p2 : Bytes)
    (r1 r2 : Option Repo) (f1 f2 : Bytes)
    (hser : o.serializeFn = .ok data) (hfmt : o.fmtB = .ok fmtb)
    (hf1 : f1 ∈ knownFmts) (hf2 : f2 ∈ knownFmts) :
    object_write o false fs = .ok (sha1hex (headerWith fmtb data.length data), fs) ∧
    (sha1hex (headerWith fmtb data.length data)).length = 40 ∧
    object_write ⟨r1, .blob p⟩ false fs =
      .ok (sha1hex (headerWith (bstr "blob") p.length p), fs) ∧
    object_write ⟨r2, .blob p⟩ false fs2 =
      .ok (sha1hex (headerWith (bstr "blob") p.length p), fs2) ∧
    (headerWith f1 p1.length p1 = headerWith f2 p2.length p2 → f1 = f2 ∧ p1 = p2) := by
  have hfok : ∀ f : Bytes, f ∈ knownFmts → fmtOk f = true := by
    intro f hf
    simp [knownFmts] at hf
    rcases hf with h | h | h | h <;> subst h <;> decide
  refine ⟨object_write_false fs hser hfmt, sha1hex_length _, ?_, ?_, ?_⟩
  · exact @object_write_false ⟨r1, .blob p⟩ p (bstr "blob") fs rfl rfl
  · exact @object_write_false ⟨r2, .blob p⟩ p (bstr "blob") fs2 rfl rfl
  · exact fun h => headerWith_inj (hfok f1 hf1) (hfok f2 hf2) h

/-- C5 witness at a concrete blob. -/
theorem c5_identifier_scheme_witness :
    object_write ⟨none, .blob (bstr "hi")⟩ false (⟨[], []⟩ : FS) =
      .ok (sha1hex (headerWith (bstr "blob") (bstr "hi").length (bstr "hi")), (⟨[], []⟩ : FS)) ∧
    (sha1hex (headerWith (bstr "blob") (bstr "hi").length (bstr "hi"))).length = 40 ∧
    object_write ⟨none, .blob (bstr "hi")⟩ false (⟨[], []⟩ : FS) =
      .ok (sha1hex (headerWith (bstr "blob") (bstr "hi").length (bstr "hi")), (⟨[], []⟩ : FS)) ∧
    object_write ⟨some ⟨["w"], ["w", ".git"], ⟨[]⟩⟩, .blob (bstr "hi")⟩ false
        (⟨[], [["w"]]⟩ : FS) =
      .ok (sha1hex (headerWith (bstr "blob") (bstr "hi").length (bstr "hi")),
        (⟨[], [["w"]]⟩ : FS)) ∧
    (headerWith (bstr "blob") (bstr "a").length (bstr "a") =
        headerWith (bstr "blob") (bstr "a").length (bstr "a") →
      bstr "blob" = bstr "blob" ∧ bstr "a" = bstr "a") :=
  c5_identifier_scheme ⟨none, .blob (bstr "hi")⟩ (⟨[], []⟩ : FS) (⟨[], [["w"]]⟩ : FS)
    (bstr "hi") (bstr "blob") (bstr "hi") (bstr "a") (bstr "a") none
    (some ⟨["w"], ["w", ".git"], ⟨[]⟩⟩) (bstr "blob") (bstr "blob")
    rfl rfl (by decide) (by decide)

/-! Reading back a stored header. -/

lemma all_lt_128_header (N : Nat) : (32 :: decDigits N).all (fun x => x < 128) = true := by
  rw [List.all_eq_true]
  intro x hx
  rcases List.mem_cons.mp hx with h | h
  · subst h; decide
  · have := decDigits_bounds N x h
    simp only [decide_eq_true_eq]
    omega

lemma object_read_header (r : Repo) (sha : String) (fs : FS) (f p : Bytes) (N : Nat)
    (hf : fmtOk f = true)
    (hs : fs.readFile (objPath r sha) = some (zlibCompress (headerWith f N p))) :
    object_read r sha fs =
      if (N : Int) ≠ (p.length : Int) then .error .malformedObject
      else decode_as f (some r) p := by
  set raw := headerWith f N p with hrawdef
  have hassoc : raw = f ++ (32 :: decDigits N) ++ (0 :: p) := by
    rw [hrawdef]; simp [headerWith]
  have hx : pyFind raw 32 0 = ((f.length : Nat) : Int) := by
    have hdrop : raw.drop 0 = f ++ 32 :: (decDigits N ++ 0 :: p) := by
      rw [List.drop_zero, hrawdef, headerWith_reassoc]
    simpa using pyFind_of_drop 0 hdrop (fmtOk_no_space hf)
  have hfmtb : pySlice raw 0 ((f.length : Nat) : Int) = f := by
    conv_lhs => rw [hrawdef, headerWith_reassoc]
    exact pySlice_prefix f _
  have hmid_no0 : ∀ x ∈ 32 :: decDigits N, x ≠ 0 := by
    intro x hmem
    rcases List.mem_cons.mp hmem with h | h
    · omega
    · have := decDigits_bounds N x h; omega
  have hy : pyFind raw 0 ((f.length : Nat) : Int) =
      ((f.length + ((decDigits N).length + 1) : Nat) : Int) := by
    have hdrop : raw.drop f.length = (32 :: decDigits N) ++ 0 :: p := by
      conv_lhs => rw [hassoc]
      rw [List.append_assoc, List.drop_left]
    have := pyFind_of_drop f.length hdrop hmid_no0
    simpa [Nat.add_comm] using this
  have hsizeb : pySlice raw ((f.length : Nat) : Int)
      ((f.length + ((decDigits N).length + 1) : Nat) : Int) = 32 :: decDigits N := by
    have := pySlice_mid f (32 :: decDigits N) (0 :: p)
    rw [hassoc]
    simpa [Nat.add_comm] using this
  have hdec : pyDecodeAscii (32 :: decDigits N) = .ok (32 :: decDigits N) := by
    simp [pyDecodeAscii, all_lt_128_header N]
  have hlen : (raw.length : Int) - ((f.length + ((decDigits N).length + 1) : Nat) : Int) - 1 =
      (p.length : Int) := by
    rw [hassoc]
    simp only [List.length_append, List.length_cons]
    push_cast
    ring
  have hdroppay : pyDropFrom raw (((f.length + ((decDigits N).length + 1) : Nat) : Int) + 1) =
      p := by
    have hpre : raw = (f ++ 32 :: decDigits N ++ [0]) ++ p := by
      rw [hassoc]; simp
    have hlenpre : (f ++ 32 :: decDigits N ++ [0]).length =
        f.length + ((decDigits N).length + 1) + 1 := by
      simp; omega
    have := pyDropFrom_append (f ++ 32 :: decDigits N ++ [0]) p
    rw [hlenpre] at this
    rw [hpre]
    convert this using 2
  unfold object_read
  rw [hs]
  simp only [zlibDecompress, zlibCompress, hx, hfmtb, hy, hsizeb, hdec,
    pyInt_space_decDigits, hlen, hdroppay]

/-- C6: a stored object whose decompressed header declares a decimal length
that differs from the actual byte count after the NUL makes `object_read`
fail with the malformed-object error instead of returning an object. -/
theorem c6_malformed_length (r : Repo) (sha : String) (fs : FS) (f p : Bytes) (N : Nat)
    (hf : fmtOk f = true)
    (hs : fs.readFile (objPath r sha) = some (zlibCompress (headerWith f N p)))
    (hN : N ≠ p.length) :
    object_read r sha fs = .error .malformedObject := by
  rw [object_read_header r sha fs f p N hf hs, if_pos]
  exact_mod_cast hN

/-- C6 witness: a header declaring five bytes over a three-byte payload. -/
theorem c6_malformed_length_witness :
    object_read ⟨["w"], ["w", ".git"], ⟨[]⟩⟩ "0123456789012345678901234567890123456789"
      ⟨[(objPath ⟨["w"], ["w", ".git"], ⟨[]⟩⟩ "0123456789012345678901234567890123456789",
        zlibCompress (headerWith (bstr "blob") 5 (bstr "abc")))], []⟩ =
      .error .malformedObject :=
  c6_malformed_length ⟨["w"], ["w", ".git"], ⟨[]⟩⟩
    "0123456789012345678901234567890123456789"
    ⟨[(objPath ⟨["w"], ["w", ".git"], ⟨[]⟩⟩ "0123456789012345678901234567890123456789",
      zlibCompress (headerWith (bstr "blob") 5 (bstr "abc")))], []⟩
    (bstr "blob") (bstr "abc") 5 (by decide) (by decide) (by decide)

/-- C8: with a well-sized header, `object_read` reaches the constructor
dispatch on the declared kind name — the shared `decode_as` used by the
object constructors — and that dispatch fails with the unknown-kind error
for every name outside blob, tree, commit and tag. -/
theorem c8_kind_dispatch (r : Repo) (sha : String) (fs : FS) (f p : Bytes)
    (hf : fmtOk f = true)
    (hs : fs.readFile (objPath r sha) = some (zlibCompress (headerWith f p.length p))) :
    object_read r sha fs = decode_as f (some r) p ∧
    (f ∉ knownFmts → object_read r sha fs = .error .unknownObjectKind) := by
  have hbase : object_read r sha fs = decode_as f (some r) p := by
    rw [object_read_header r sha fs f p p.length hf hs, if_neg]
    simp
  refine ⟨hbase, fun hnot => ?_⟩
  rw [hbase]
  unfold decode_as
  have h1 : ¬(f = bstr "commit") := fun h => hnot (by rw [h]; simp [knownFmts])
  have h2 : ¬(f = bstr "tree") := fun h => hnot (by rw [h]; simp [knownFmts])
  have h3 : ¬(f = bstr "tag") := fun h => hnot (by rw [h]; simp [knownFmts])
  have h4 : ¬(f = bstr "blob") := fun h => hnot (by rw [h]; simp [knownFmts])
  simp [h1, h2, h3, h4]

/-- C8 witness: the unknown kind name blog is rejected. -/
theorem c8_kind_dispatch_witness :
    object_read ⟨["w"], ["w", ".git"], ⟨[]⟩⟩ "0123456789012345678901234567890123456789"
      ⟨[(objPath ⟨["w"], ["w", ".git"], ⟨[]⟩⟩ "0123456789012345678901234567890123456789",
        zlibCompress (headerWith (bstr "blog") (bstr "abc").length (bstr "abc")))], []⟩ =
      decode_as (bstr "blog") (some ⟨["w"], ["w", ".git"], ⟨[]⟩⟩) (bstr "abc") ∧
    (bstr "blog" ∉ knownFmts →
      object_read ⟨["w"], ["w", ".git"], ⟨[]⟩⟩ "0123456789012345678901234567890123456789"
        ⟨[(objPath ⟨["w"], ["w", ".git"], ⟨[]⟩⟩ "0123456789012345678901234567890123456789",
          zlibCompress (headerWith (bstr "blog") (bstr "abc").length (bstr "abc")))], []⟩ =
        .error .unknownObjectKind) :=
  c8_kind_dispatch ⟨["w"], ["w", ".git"], ⟨[]⟩⟩
    "0123456789012345678901234567890123456789"
    ⟨[(objPath ⟨["w"], ["w", ".git"], ⟨[]⟩⟩ "0123456789012345678901234567890123456789",
      zlibCompress (headerWith (bstr "blog") (bstr "abc").length (bstr "abc")))], []⟩
    (bstr "blog") (bstr "abc") (by decide) (by decide)

/-! The persisting write path. -/

/-- No file of the store lies at or below the path (directories are
unconstrained). -/
def cleanFilesUnder (fs : FS) (p : Path) : Bool :=
  fs.files.all (fun e => !(p.isPrefixOf e.1))

lemma lookup_eq_none_of_keys {α β : Type} [BEq α] [LawfulBEq α] {l : List (α × β)} {q : α}
    (h : ∀ e ∈ l, e.1 ≠ q) : List.lookup q l = none := by
  induction l with
  | nil => rfl
  | cons e rest ih =>
    cases e with
    | mk k v =>
      have he : (q == k) = false :=
        beq_eq_false_iff_ne.mpr (Ne.symm (h (k, v) (by simp)))
      simp only [List.lookup, he]
      exact ih (fun e hmem => h e (by simp [hmem]))

lemma clean_keys {fs : FS} {base : Path} (hclean : cleanFilesUnder fs base = true) :
    ∀ (suffix : List String) e, e ∈ fs.files → e.1 ≠ base ++ suffix := by
  intro suffix e he heq
  have hall := List.all_eq_true.mp hclean e he
  simp only [Bool.not_eq_true'] at hall
  rw [heq] at hall
  rw [List.isPrefixOf_iff_prefix.mpr (List.prefix_append base suffix)] at hall
  cases hall

lemma object_write_true {o : GitObj} {r : Repo} {data fmtb : Bytes} (fs : FS)
    (hser : o.serializeFn = .ok data) (hfmt : o.fmtB = .ok fmtb)
    (hrepo : o.repo = some r)
    (hclean : cleanFilesUnder fs (r.gitdir ++ ["objects"]) = true) :
    ∃ fs', object_write o true fs =
        .ok (sha1hex (headerWith fmtb data.length data), fs') ∧
      fs'.files = (objPath r (sha1hex (headerWith fmtb data.length data)),
        zlibCompress (headerWith fmtb data.length data)) :: fs.files := by
  set sha := sha1hex (headerWith fmtb data.length data) with hsha
  have hq : repo_path r ["objects", shaTake2 sha] =
      (r.gitdir ++ ["objects"]) ++ [shaTake2 sha] := by
    simp [repo_path]
  have hobj : objPath r sha = (r.gitdir ++ ["objects"]) ++ [shaTake2 sha, shaDrop2 sha] := by
    simp [objPath]
  have hfileq : FS.isFile fs (repo_path r ["objects", shaTake2 sha]) = false := by
    unfold FS.isFile
    rw [hq, lookup_eq_none_of_keys (clean_keys hclean [shaTake2 sha])]
    rfl
  have hwf : ∀ fsmid : FS, fsmid.files = fs.files →
      (FS.writeFile fsmid (objPath r sha) (zlibCompress (headerWith fmtb data.length data))).files =
        (objPath r sha, zlibCompress (headerWith fmtb data.length data)) :: fs.files := by
    intro fsmid hmid
    unfold FS.writeFile
    simp only [hmid]
    congr 1
    rw [List.filter_eq_self]
    intro e he
    simp only [decide_eq_true_eq]
    rw [hobj]
    exact clean_keys hclean [shaTake2 sha, shaDrop2 sha] e he
  have hdrop3 : (["objects", shaTake2 sha, shaDrop2 sha] : List String).dropLast =
      ["objects", shaTake2 sha] := rfl
  have hppath : repo_path r ["objects", shaTake2 sha, shaDrop2 sha] = objPath r sha := rfl
  cases hdir : fs.isDir (repo_path r ["objects", shaTake2 sha]) with
  | true =>
    have hrf : repo_file r ["objects", shaTake2 sha, shaDrop2 sha] true fs =
        .ok (some (objPath r sha), fs) := by
      unfold repo_file repo_dir
      rw [hdrop3]
      simp [FS.existsP, hdir, hfileq, hppath, Except.map]
    refine ⟨FS.writeFile fs (objPath r sha) (zlibCompress (headerWith fmtb data.length data)),
      ?_, hwf fs rfl⟩
    unfold object_write
    rw [hser, hfmt, hrepo]
    simp only [if_true]
    rw [hrf]
  | false =>
    have hrf : repo_file r ["objects", shaTake2 sha, shaDrop2 sha] true fs =
        .ok (some (objPath r sha),
          fs.makedirs (repo_path r ["objects", shaTake2 sha])) := by
      unfold repo_file repo_dir
      rw [hdrop3]
      simp [FS.existsP, hdir, hfileq, hppath, Except.map]
    refine ⟨FS.writeFile (fs.makedirs (repo_path r ["objects", shaTake2 sha]))
      (objPath r sha) (zlibCompress (headerWith fmtb data.length data)), ?_,
      hwf _ rfl⟩
    unfold object_write
    rw [hser, hfmt, hrepo]
    simp only [if_true]
    rw [hrf]

lemma readFile_head (fs' : FS) (p : Path) (c : Bytes) (rest : List (Path × Bytes))
    (h : fs'.files = (p, c) :: rest) : fs'.readFile p = some c := by
  unfold FS.readFile
  rw [h]
  simp [List.lookup]

/-- C4: storing any successfully decoded object with persist on and reading
it back by the returned identifier reproduces the object: the header prepend
and compression of `object_write` are exactly inverted by the decompression
and header parse of `object_read`. -/
theorem c4_store_roundtrip (fmt b : Bytes) (r : Repo) (fs : FS) (obj : GitObj)
    (hdec : decode_as fmt (some r) b = .ok obj)
    (hclean : cleanFilesUnder fs (r.gitdir ++ ["objects"]) = true) :
    ∃ sha fs', object_write obj true fs = .ok (sha, fs') ∧
      object_read r sha fs' = .ok obj := by
  obtain ⟨hser, hfmt, hrepo, hfok⟩ := decode_as_ok hdec
  obtain ⟨fs', hw, hfiles⟩ := object_write_true fs hser hfmt hrepo hclean
  refine ⟨sha1hex (headerWith fmt b.length b), fs', hw, ?_⟩
  have hrd := readFile_head fs' _ _ _ hfiles
  rw [object_read_header r _ fs' fmt b b.length hfok hrd, if_neg (by simp), hdec]

/-- C4 witness: a concrete blob stored into an empty store and read back. -/
theorem c4_store_roundtrip_witness :
    ∃ sha fs', object_write ⟨some ⟨["w"], ["w", ".git"], ⟨[]⟩⟩, .blob (bstr "hello")⟩
        true (⟨[], []⟩ : FS) = .ok (sha, fs') ∧
      object_read ⟨["w"], ["w", ".git"], ⟨[]⟩⟩ sha fs' =
        .ok ⟨some ⟨["w"], ["w", ".git"], ⟨[]⟩⟩, .blob (bstr "hello")⟩ :=
  c4_store_roundtrip (bstr "blob") (bstr "hello") ⟨["w"], ["w", ".git"], ⟨[]⟩⟩
    (⟨[], []⟩ : FS) ⟨some ⟨["w"], ["w", ".git"], ⟨[]⟩⟩, .blob (bstr "hello")⟩
    (by decide) (by decide)

/-- C7: hashing is independent of persistence.  Writing with persist off
returns the identifier while leaving the store exactly as given — no file is
created — and writing the same object with persist on returns the very same
identifier. -/
theorem c7_dry_run (o : GitObj) (r : Repo) (fs fs2 : FS) (data fmtb : Bytes)
    (hser : o.serializeFn = .ok data) (hfmt : o.fmtB = .ok fmtb)
    (hrepo : o.repo = some r)
    (hclean : cleanFilesUnder fs2 (r.gitdir ++ ["objects"]) = true) :
    object_write o false fs = .ok (sha1hex (headerWith fmtb data.length data), fs) ∧
    ∃ fs3, object_write o true fs2 =
      .ok (sha1hex (headerWith fmtb data.length data), fs3) := by
  obtain ⟨fs3, hw, _⟩ := object_write_true fs2 hser hfmt hrepo hclean
  exact ⟨object_write_false fs hser hfmt, fs3, hw⟩

/-- C7 witness at a concrete blob. -/
theorem c7_dry_run_witness :
    object_write ⟨some ⟨["w"], ["w", ".git"], ⟨[]⟩⟩, .blob (bstr "hi")⟩ false
        (⟨[], []⟩ : FS) =
      .ok (sha1hex (headerWith (bstr "blob") (bstr "hi").length (bstr "hi")),
        (⟨[], []⟩ : FS)) ∧
    ∃ fs3, object_write ⟨some ⟨["w"], ["w", ".git"], ⟨[]⟩⟩, .blob (bstr "hi")⟩ true
        (⟨[], []⟩ : FS) =
      .ok (sha1hex (headerWith (bstr "blob") (bstr "hi").length (bstr "hi")), fs3) :=
  c7_dry_run ⟨some ⟨["w"], ["w", ".git"], ⟨[]⟩⟩, .blob (bstr "hi")⟩
    ⟨["w"], ["w", ".git"], ⟨[]⟩⟩ (⟨[], []⟩ : FS) (⟨[], []⟩ : FS) (bstr "hi") (bstr "blob")
    rfl rfl rfl (by decide)

/-- C10: `object_hash` forwards the optional handle itself to `object_write`
as the persistence flag, so persistence is controlled purely by handle
presence: with no handle the identifier is still computed and returned with
the store untouched, and with a handle present exactly one new file appears
under the identifier path. -/
theorem c10_handle_as_flag (data fmt : Bytes) (repo : Option Repo) (fs : FS) (obj : GitObj)
    (h : decode_as fmt repo data = .ok obj) :
    object_hash data fmt repo fs = object_write obj (truthyOpt repo) fs ∧
    truthyOpt (none : Option Repo) = false ∧ (∀ r : Repo, truthyOpt (some r) = true) ∧
    (repo = none → ∃ sha, object_hash data fmt repo fs = .ok (sha, fs)) ∧
    (∀ r : Repo, repo = some r → cleanFilesUnder fs (r.gitdir ++ ["objects"]) = true →
      ∃ sha fs', object_hash data fmt repo fs = .ok (sha, fs') ∧
        fs'.files.length = fs.files.length + 1 ∧ fs'.readFile (objPath r sha) ≠ none) := by
  obtain ⟨hser, hfmt, hrepo, _⟩ := decode_as_ok h
  have hbase : object_hash data fmt repo fs = object_write obj (truthyOpt repo) fs := by
    unfold object_hash
    rw [h]
  refine ⟨hbase, rfl, fun _ => rfl, ?_, ?_⟩
  · intro hnone
    subst hnone
    refine ⟨sha1hex (headerWith fmt data.length data), ?_⟩
    rw [hbase]
    exact object_write_false fs hser hfmt
  · intro r hsome hclean
    subst hsome
    obtain ⟨fs', hw, hfiles⟩ := object_write_true fs hser hfmt hrepo hclean
    refine ⟨sha1hex (headerWith fmt data.length data), fs', ?_, ?_, ?_⟩
    · rw [hbase]; exact hw
    · rw [hfiles]; simp
    · rw [readFile_head fs' _ _ _ hfiles]; simp

/-- C10 witness: a concrete blob hashed without a handle and with one. -/
theorem c10_handle_as_flag_witness :
    object_hash (bstr "hola") (bstr "blob") none (⟨[], []⟩ : FS) =
      object_write ⟨none, .blob (bstr "hola")⟩ (truthyOpt none) (⟨[], []⟩ : FS) ∧
    truthyOpt (none : Option Repo) = false ∧ (∀ r : Repo, truthyOpt (some r) = true) ∧
    ((none : Option Repo) = none →
      ∃ sha, object_hash (bstr "hola") (bstr "blob") none (⟨[], []⟩ : FS) = .ok (sha, (⟨[], []⟩ : FS))) ∧
    (∀ r : Repo, (none : Option Repo) = some r →
      cleanFilesUnder (⟨[], []⟩ : FS) (r.gitdir ++ ["objects"]) = true →
      ∃ sha fs', object_hash (bstr "hola") (bstr "blob") none (⟨[], []⟩ : FS) = .ok (sha, fs') ∧
        fs'.files.length = (⟨[], []⟩ : FS).files.length + 1 ∧
        fs'.readFile (objPath r sha) ≠ none) :=
  c10_handle_as_flag (bstr "hola") (bstr "blob") none (⟨[], []⟩ : FS)
    ⟨none, .blob (bstr "hola")⟩ (by decide)

/-! Repository creation. -/

lemma mem_allPrefixes : ∀ {p q : Path}, q ∈ allPrefixes p ↔ q ≠ [] ∧ q <+: p := by
  intro p
  induction p with
  | nil =>
    intro q
    constructor
    · intro h; simp [allPrefixes] at h
    · rintro ⟨hne, hp⟩
      exact absurd (List.prefix_nil.mp hp) hne
  | cons a as ih =>
    intro q
    constructor
    · intro h
      simp only [allPrefixes, List.mem_cons, List.mem_map] at h
      rcases h with h | ⟨x, hx, hxq⟩
      · subst h
        exact ⟨by simp, ⟨as, rfl⟩⟩
      · obtain ⟨hne, hpre⟩ := ih.mp hx
        subst hxq
        obtain ⟨t, ht⟩ := hpre
        exact ⟨by simp, ⟨t, by rw [← ht]; rfl⟩⟩
    · rintro ⟨hne, hpre⟩
      cases q with
      | nil => exact absurd rfl hne
      | cons b bs =>
        obtain ⟨t, ht⟩ := hpre
        simp only [List.cons_append] at ht
        injection ht with h1 h2
        subst h1
        simp only [allPrefixes, List.mem_cons, List.mem_map]
        cases bs with
        | nil => left; rfl
        | cons c cs =>
          right
          exact ⟨c :: cs, ih.mpr ⟨by simp, ⟨t, h2⟩⟩, rfl⟩

lemma isDir_false_of_not_mem {fs : FS} {q : Path} (h : q ∉ fs.dirs) :
    fs.isDir q = false := by
  unfold FS.isDir
  by_contra hc
  simp only [Bool.not_eq_false] at hc
  exact h (List.elem_iff.mp hc)

lemma isDir_true_of_mem {fs : FS} {q : Path} (h : q ∈ fs.dirs) : fs.isDir q = true := by
  unfold FS.isDir
  exact List.elem_iff.mpr h

lemma not_mem_allPrefixes_append {path : Path} {a b : List String}
    (hnp : ¬ (a <+: b)) : path ++ a ∉ allPrefixes (path ++ b) := by
  intro hm
  exact hnp ((List.prefix_append_right_inj path).mp (mem_allPrefixes.mp hm).2)

lemma not_mem_of_short {D0 : List Path} {path : Path} {a : List String}
    (hD0 : ∀ d ∈ D0, d.length ≤ path.length) (ha : a ≠ []) : path ++ a ∉ D0 := by
  intro hm
  have h1 := hD0 _ hm
  simp only [List.length_append] at h1
  have h2 : a.length = 0 := by omega
  exact ha (List.length_eq_zero.mp h2)

lemma gitRepositoryMk_force {fs : FS} {path : Path}
    (h : fs.existsP (path ++ [".git"]) = false) :
    gitRepositoryMk fs path true = .ok ⟨path, path ++ [".git"], ⟨[]⟩⟩ := by
  unfold gitRepositoryMk
  simp [h]

lemma repo_dir_mkdir_fresh (repo : Repo) (segs : List String) (fs : FS)
    (hnd : fs.isDir (repo_path repo segs) = false)
    (hnf : fs.isFile (repo_path repo segs) = false) :
    repo_dir repo segs true fs =
      .ok (some (repo_path repo segs), fs.makedirs (repo_path repo segs)) := by
  unfold repo_dir
  simp [FS.existsP, hnd, hnf]

lemma repo_file_flat (repo : Repo) (seg : String) (fs : FS)
    (hd : fs.isDir repo.gitdir = true) :
    repo_file repo [seg] false fs = .ok (some (repo.gitdir ++ [seg]), fs) := by
  unfold repo_file repo_dir
  simp [repo_path, FS.existsP, hd, Except.map]

/-- The store produced by a successful `repo_create path` on top of base
directories `baseDirs`: the three default files and the skeleton directory
chains, most recently created first. -/
def createdAt (path : Path) (baseDirs : List Path) : FS :=
  ⟨[(path ++ [".git", "config"], iniWrite repo_default_config),
    (path ++ [".git", "HEAD"], headText),
    (path ++ [".git", "description"], descriptionText)],
   allPrefixes (path ++ [".git", "refs", "heads"]) ++
     (allPrefixes (path ++ [".git", "refs", "tags"]) ++
       (allPrefixes (path ++ [".git", "objects"]) ++
         (allPrefixes (path ++ [".git", "branches"]) ++ baseDirs)))⟩

lemma append_ne_append {path : Path} {s1 s2 : List String} (h12 : s1 ≠ s2) :
    path ++ s1 ≠ path ++ s2 := by
  intro he
  exact h12 (List.append_cancel_left he)

lemma repo_create_success (path : Path) (D D1 : List Path)
    (hD : ∀ d ∈ D, d.length ≤ path.length)
    (hcase : (FS.existsP ⟨[], D⟩ path = false ∧ D1 = allPrefixes path ++ D) ∨
      (FS.isDir ⟨[], D⟩ path = true ∧ FS.hasEntryUnder ⟨[], D⟩ path = false ∧ D1 = D)) :
    repo_create path ⟨[], D⟩ =
      .ok (⟨path, path ++ [".git"], ⟨[]⟩⟩, createdAt path D1) := by
  have hD1 : ∀ d ∈ D1, d.length ≤ path.length := by
    rcases hcase with ⟨_, rfl⟩ | ⟨_, _, rfl⟩
    · intro d hd
      rcases List.mem_append.mp hd with h | h
      · exact (mem_allPrefixes.mp h).2.length_le
      · exact hD d h
    · exact hD
  have hgit : FS.existsP ⟨[], D⟩ (path ++ [".git"]) = false := by
    have hnm : (path ++ [".git"]) ∉ D := not_mem_of_short hD (by simp)
    have hnd : FS.isDir ⟨[], D⟩ (path ++ [".git"]) = false :=
      @isDir_false_of_not_mem ⟨[], D⟩ _ hnm
    simp [FS.existsP, FS.isFile, hnd]
  have hd1 : repo_dir ⟨path, path ++ [".git"], ⟨[]⟩⟩ ["branches"] true (⟨[], D1⟩ : FS) =
      .ok (some (path ++ [".git", "branches"]),
        ⟨[], allPrefixes (path ++ [".git", "branches"]) ++ D1⟩) := by
    have hmem : path ++ [".git", "branches"] ∉ D1 := not_mem_of_short hD1 (by simp)
    have h := repo_dir_mkdir_fresh ⟨path, path ++ [".git"], ⟨[]⟩⟩ ["branches"] ⟨[], D1⟩
      (by simpa [repo_path] using isDir_false_of_not_mem hmem) rfl
    simpa [repo_path, FS.makedirs] using h
  have hmem2 : path ++ [".git", "objects"] ∉
      allPrefixes (path ++ [".git", "branches"]) ++ D1 := by
    simp only [List.mem_append]
    rintro (h | h)
    · exact not_mem_allPrefixes_append (by decide) h
    · exact not_mem_of_short hD1 (by simp) h
  have hd2 : repo_dir ⟨path, path ++ [".git"], ⟨[]⟩⟩ ["objects"] true
      (⟨[], allPrefixes (path ++ [".git", "branches"]) ++ D1⟩ : FS) =
      .ok (some (path ++ [".git", "objects"]),
        ⟨[], allPrefixes (path ++ [".git", "objects"]) ++
          (allPrefixes (path ++ [".git", "branches"]) ++ D1)⟩) := by
    have h := repo_dir_mkdir_fresh ⟨path, path ++ [".git"], ⟨[]⟩⟩ ["objects"]
      ⟨[], allPrefixes (path ++ [".git", "branches"]) ++ D1⟩
      (by simpa [repo_path] using isDir_false_of_not_mem hmem2) rfl
    simpa [repo_path, FS.makedirs] using h
  have hmem3 : path ++ [".git", "refs", "tags"] ∉
      allPrefixes (path ++ [".git", "objects"]) ++
        (allPrefixes (path ++ [".git", "branches"]) ++ D1) := by
    simp only [List.mem_append]
    rintro (h | h | h)
    · exact not_mem_allPrefixes_append (by decide) h
    · exact not_mem_allPrefixes_append (by decide) h
    · exact not_mem_of_short hD1 (by simp) h
  have hd3 : repo_dir ⟨path, path ++ [".git"], ⟨[]⟩⟩ ["refs", "tags"] true
      (⟨[], allPrefixes (path ++ [".git", "objects"]) ++
        (allPrefixes (path ++ [".git", "branches"]) ++ D1)⟩ : FS) =
      .ok (some (path ++ [".git", "refs", "tags"]),
        ⟨[], allPrefixes (path ++ [".git", "refs", "tags"]) ++
          (allPrefixes (path ++ [".git", "objects"]) ++
            (allPrefixes (path ++ [".git", "branches"]) ++ D1))⟩) := by
    have h := repo_dir_mkdir_fresh ⟨path, path ++ [".git"], ⟨[]⟩⟩ ["refs", "tags"]
      ⟨[], allPrefixes (path ++ [".git", "objects"]) ++
        (allPrefixes (path ++ [".git", "branches"]) ++ D1)⟩
      (by simpa [repo_path] using isDir_false_of_not_mem hmem3) rfl
    simpa [repo_path, FS.makedirs] using h
  have hmem4 : path ++ [".git", "refs", "heads"] ∉
      allPrefixes (path ++ [".git", "refs", "tags"]) ++
        (allPrefixes (path ++ [".git", "objects"]) ++
          (allPrefixes (path ++ [".git", "branches"]) ++ D1)) := by
    simp only [List.mem_append]
    rintro (h | h | h | h)
    · exact not_mem_allPrefixes_append (by decide) h
    · exact not_mem_allPrefixes_append (by decide) h
    · exact not_mem_allPrefixes_append (by decide) h
    · exact not_mem_of_short hD1 (by simp) h
  have hd4 : repo_dir ⟨path, path ++ [".git"], ⟨[]⟩⟩ ["refs", "heads"] true
      (⟨[], allPrefixes (path ++ [".git", "refs", "tags"]) ++
        (allPrefixes (path ++ [".git", "objects"]) ++
          (allPrefixes (path ++ [".git", "branches"]) ++ D1))⟩ : FS) =
      .ok (some (path ++ [".git", "refs", "heads"]),
        ⟨[], allPrefixes (path ++ [".git", "refs", "heads"]) ++
          (allPrefixes (path ++ [".git", "refs", "tags"]) ++
            (allPrefixes (path ++ [".git", "objects"]) ++
              (allPrefixes (path ++ [".git", "branches"]) ++ D1)))⟩) := by
    have h := repo_dir_mkdir_fresh ⟨path, path ++ [".git"], ⟨[]⟩⟩ ["refs", "heads"]
      ⟨[], allPrefixes (path ++ [".git", "refs", "tags"]) ++
        (allPrefixes (path ++ [".git", "objects"]) ++
          (allPrefixes (path ++ [".git", "branches"]) ++ D1))⟩
      (by simpa [repo_path] using isDir_false_of_not_mem hmem4) rfl
    simpa [repo_path, FS.makedirs] using h
  have hgmem : path ++ [".git"] ∈
      allPrefixes (path ++ [".git", "refs", "heads"]) ++
        (allPrefixes (path ++ [".git", "refs", "tags"]) ++
          (allPrefixes (path ++ [".git", "objects"]) ++
            (allPrefixes (path ++ [".git", "branches"]) ++ D1))) := by
    simp only [List.mem_append]
    left
    exact mem_allPrefixes.mpr ⟨by simp,
      (List.prefix_append_right_inj path).mpr (by decide)⟩
  have hflat : ∀ (seg : String) (F : List (Path × Bytes)),
      repo_file ⟨path, path ++ [".git"], ⟨[]⟩⟩ [seg] false
        (⟨F, allPrefixes (path ++ [".git", "refs", "heads"]) ++
          (allPrefixes (path ++ [".git", "refs", "tags"]) ++
            (allPrefixes (path ++ [".git", "objects"]) ++
              (allPrefixes (path ++ [".git", "branches"]) ++ D1)))⟩ : FS) =
        .ok (some (path ++ [".git", seg]),
          ⟨F, allPrefixes (path ++ [".git", "refs", "heads"]) ++
            (allPrefixes (path ++ [".git", "refs", "tags"]) ++
              (allPrefixes (path ++ [".git", "objects"]) ++
                (allPrefixes (path ++ [".git", "branches"]) ++ D1)))⟩) := by
    intro seg F
    have h := repo_file_flat ⟨path, path ++ [".git"], ⟨[]⟩⟩ seg
      ⟨F, allPrefixes (path ++ [".git", "refs", "heads"]) ++
        (allPrefixes (path ++ [".git", "refs", "tags"]) ++
          (allPrefixes (path ++ [".git", "objects"]) ++
            (allPrefixes (path ++ [".git", "branches"]) ++ D1)))⟩
      (isDir_true_of_mem hgmem)
    simpa using h
  unfold repo_create
  rw [gitRepositoryMk_force hgit]
  rcases hcase with ⟨hex, hD1eq⟩ | ⟨hdir, hent, hD1eq⟩
  · subst hD1eq
    simp only [hex, Bool.false_eq_true, if_false, FS.makedirs]
    rw [show ({ (⟨[], D⟩ : FS) with dirs := allPrefixes path ++ (⟨[], D⟩ : FS).dirs } : FS) =
      (⟨[], allPrefixes path ++ D⟩ : FS) from rfl]
    rw [hd1]
    simp only [Option.isSome_some, Bool.not_true, Bool.false_eq_true, if_false]
    rw [hd2]
    simp only [Option.isSome_some, Bool.not_true, Bool.false_eq_true, if_false]
    rw [hd3]
    simp only [Option.isSome_some, Bool.not_true, Bool.false_eq_true, if_false]
    rw [hd4]
    simp only [Option.isSome_some, Bool.not_true, Bool.false_eq_true, if_false]
    rw [hflat "description" []]
    simp only [FS.writeFile, List.filter_nil]
    rw [hflat "HEAD" [(path ++ [".git", "description"], descriptionText)]]
    simp only [FS.writeFile]
    rw [List.filter_cons_of_pos (by
      simp [append_ne_append (show [".git", "description"] ≠ [".git", "HEAD"] by decide)]),
      List.filter_nil]
    rw [hflat "config" [(path ++ [".git", "HEAD"], headText),
      (path ++ [".git", "description"], descriptionText)]]
    simp only [FS.writeFile]
    rw [List.filter_cons_of_pos (by
      simp [append_ne_append (show [".git", "HEAD"] ≠ [".git", "config"] by decide)]),
      List.filter_cons_of_pos (by
      simp [append_ne_append (show [".git", "description"] ≠ [".git", "config"] by decide)]),
      List.filter_nil]
    rfl
  · subst hD1eq
    simp only [FS.existsP, hdir, Bool.true_or, if_true, Bool.not_true, Bool.false_eq_true,
      if_false, hent]
    rw [hd1]
    simp only [Option.isSome_some, Bool.not_true, Bool.false_eq_true, if_false]
    rw [hd2]
    simp only [Option.isSome_some, Bool.not_true, Bool.false_eq_true, if_false]
    rw [hd3]
    simp only [Option.isSome_some, Bool.not_true, Bool.false_eq_true, if_false]
    rw [hd4]
    simp only [Option.isSome_some, Bool.not_true, Bool.false_eq_true, if_false]
    rw [hflat "description" []]
    simp only [FS.writeFile, List.filter_nil]
    rw [hflat "HEAD" [(path ++ [".git", "description"], descriptionText)]]
    simp only [FS.writeFile]
    rw [List.filter_cons_of_pos (by
      simp [append_ne_append (show [".git", "description"] ≠ [".git", "HEAD"] by decide)]),
      List.filter_nil]
    rw [hflat "config" [(path ++ [".git", "HEAD"], headText),
      (path ++ [".git", "description"], descriptionText)]]
    simp only [FS.writeFile]
    rw [List.filter_cons_of_pos (by
      simp [append_ne_append (show [".git", "HEAD"] ≠ [".git", "config"] by decide)]),
      List.filter_cons_of_pos (by
      simp [append_ne_append (show [".git", "description"] ≠ [".git", "config"] by decide)]),
      List.filter_nil]
    rfl

/-- C9: `repo_create` fails with the not-a-directory error when the target
exists and is not a directory, and with the not-empty error when it is an
existing non-empty non-repository directory; on an absent target, or on an
existing empty directory, it creates exactly the skeleton — branches,
objects, refs/tags and refs/heads directory chains under the control
directory — plus the description file, a HEAD holding
`ref: refs/heads/master`, and the default configuration, whose
repositoryformatversion reads back as 0 with filemode and bare reading back
false. -/
theorem c9_repo_create :
    (∀ (path : Path) (fs : FS), fs.existsP path = true → fs.isDir path = false →
        fs.existsP (path ++ [".git"]) = false →
        repo_create path fs = .error .notADirectory) ∧
    (∀ (path : Path) (fs : FS), fs.isDir path = true → fs.hasEntryUnder path = true →
        fs.existsP (path ++ [".git"]) = false →
        repo_create path fs = .error .notEmpty) ∧
    (∀ path : Path, repo_create path ⟨[], []⟩ =
        .ok (⟨path, path ++ [".git"], ⟨[]⟩⟩, createdAt path (allPrefixes path))) ∧
    (∀ path : Path, repo_create path ⟨[], [path]⟩ =
        .ok (⟨path, path ++ [".git"], ⟨[]⟩⟩, createdAt path [path])) ∧
    (parseIni (iniWrite repo_default_config)).get "core" "repositoryformatversion" =
      .ok "0" ∧
    pyInt (bstr "0") = .ok 0 ∧
    (parseIni (iniWrite repo_default_config)).get "core" "filemode" = .ok "false" ∧
    (parseIni (iniWrite repo_default_config)).get "core" "bare" = .ok "false" := by
  refine ⟨?_, ?_, ?_, ?_, by decide, by decide, by decide, by decide⟩
  · intro path fs h1 h2 h3
    unfold repo_create
    rw [gitRepositoryMk_force h3]
    simp [h1, h2]
  · intro path fs h1 h2 h3
    unfold repo_create
    rw [gitRepositoryMk_force h3]
    simp [FS.existsP, h1, h2]
  · intro path
    have h := repo_create_success path [] (allPrefixes path ++ []) (by simp)
      (Or.inl ⟨rfl, rfl⟩)
    simpa using h
  · intro path
    exact repo_create_success path [path] [path]
      (by intro d hd; simp at hd; subst hd; exact le_refl _)
      (Or.inr ⟨isDir_true_of_mem (by simp), by simp [FS.hasEntryUnder], rfl⟩)

/-- C9 witness: a file at the target, a non-empty directory at the target,
and creation from scratch, all at the concrete path /w. -/
theorem c9_repo_create_witness :
    repo_create ["w"] ⟨[(["w"], [])], []⟩ = .error .notADirectory ∧
    repo_create ["w"] ⟨[(["w", "x"], [])], [["w"]]⟩ = .error .notEmpty ∧
    repo_create ["w"] ⟨[], []⟩ =
      .ok (⟨["w"], ["w", ".git"], ⟨[]⟩⟩, createdAt ["w"] (allPrefixes ["w"])) :=
  ⟨c9_repo_create.1 ["w"] ⟨[(["w"], [])], []⟩ (by decide) (by decide) (by decide),
   c9_repo_create.2.1 ["w"] ⟨[(["w", "x"], [])], [["w"]]⟩ (by decide) (by decide) (by decide),
   c9_repo_create.2.2.1 ["w"]⟩

/-- C5 counterexample: the literal reading — changing the payload length
always changes the identifier — is false, because the digest takes only
finitely many values while payloads of pairwise distinct lengths are
unbounded, so two blobs of different payload lengths must share an
identifier. -/
theorem c5_collision_counterexample :
    ¬ ∀ (p q : Bytes), p.length ≠ q.length →
        object_write ⟨none, .blob p⟩ false (⟨[], []⟩ : FS) ≠
          object_write ⟨none, .blob q⟩ false (⟨[], []⟩ : FS) := by
  intro h
  obtain ⟨a, b, hab, hfeq⟩ := Finite.exists_ne_map_eq_of_infinite
    (fun n : Nat =>
      (⟨sha1Nat (headerWith (bstr "blob") (List.replicate n 0).length (List.replicate n 0)),
        sha1Nat_lt _⟩ : Fin (2 ^ 160)))
  have hlen : (List.replicate a (0 : Nat)).length ≠ (List.replicate b (0 : Nat)).length := by
    simpa using hab
  apply h (List.replicate a 0) (List.replicate b 0) hlen
  have hsha : sha1Nat (headerWith (bstr "blob") (List.replicate a (0 : Nat)).length
      (List.replicate a 0)) = sha1Nat (headerWith (bstr "blob")
      (List.replicate b (0 : Nat)).length (List.replicate b 0)) := by
    have := congrArg Fin.val hfeq
    simpa using this
  have hhex : sha1hex (headerWith (bstr "blob") (List.replicate a (0 : Nat)).length
      (List.replicate a 0)) = sha1hex (headerWith (bstr "blob")
      (List.replicate b (0 : Nat)).length (List.replicate b 0)) := by
    unfold sha1hex
    rw [hsha]
  rw [@object_write_false ⟨none, .blob (List.replicate a 0)⟩ (List.replicate a 0)
      (bstr "blob") (⟨[], []⟩ : FS) rfl rfl,
    @object_write_false ⟨none, .blob (List.replicate b 0)⟩ (List.replicate b 0)
      (bstr "blob") (⟨[], []⟩ : FS) rfl rfl, hhex]

end Vcit
